import Mathlib

/-!
Verification of the SessionProbe probe engine (dub-flow/sessionprobe).

The Go source is shallowly embedded: Go strings are lists of characters,
byte slices are lists of naturals, `map[K]V` values are association lists
whose insertion operations mirror the Go map writes actually performed,
and the compiled regular expression is abstracted by its `Match` function
(the source only ever calls `compiledRegex.Match`).  Each definition is
annotated with the Go function it translates.
-/

namespace SessionProbe

/-- Go `string`, embedded as a list of characters. -/
abbrev GoString := List Char

/-- Go `unicode.IsSpace`: the Unicode White_Space property, as enumerated in
the Go standard library's range table. -/
def goIsSpace (c : Char) : Bool :=
  c == ' ' || c == '\t' || c == '\n' || (9 ≤ c.val && c.val ≤ 13)
  || c.val == 0x85 || c.val == 0xA0 || c.val == 0x1680
  || (0x2000 ≤ c.val && c.val ≤ 0x200A)
  || c.val == 0x2028 || c.val == 0x2029 || c.val == 0x202F
  || c.val == 0x205F || c.val == 0x3000

/-- Go `strings.TrimSpace`: drop leading and trailing white space. -/
def goTrimSpace (s : GoString) : GoString :=
  ((s.dropWhile goIsSpace).reverse.dropWhile goIsSpace).reverse

/-- Go `strings.Split(s, sep)` for a one-character separator (the source only
splits on `";"` and `","`).  Always returns at least one piece. -/
def goSplitChar (sep : Char) : GoString → List GoString
  | [] => [[]]
  | c :: cs =>
    match goSplitChar sep cs with
    | [] => [[]]
    | g :: gs => if c = sep then [] :: g :: gs else (c :: g) :: gs

/-- Go `strings.SplitN(s, sep, 2)` for a one-character separator: split at the
first occurrence only; the result has one piece (separator absent) or two. -/
def goSplitN2 (sep : Char) : GoString → List GoString
  | [] => [[]]
  | c :: cs =>
    if c = sep then [[], cs]
    else
      match goSplitN2 sep cs with
      | [x] => [c :: x]
      | x :: xs => (c :: x) :: xs
      | [] => [[c]]

/-- Go `strings.HasSuffix(s, suffix)`. -/
def goHasSuffix (s suffix : GoString) : Bool :=
  List.isSuffixOf suffix s

/-- Go `strings.Join(elems, sep)`. -/
def goJoin (sep : GoString) (elems : List GoString) : GoString :=
  List.intercalate sep elems

/-- Decimal-digit accumulation used by `goAtoi`; fails on any non-digit. -/
def goDigitsAux : Nat → GoString → Option Nat
  | acc, [] => some acc
  | acc, c :: cs => if c.isDigit then goDigitsAux (acc * 10 + (c.toNat - 48)) cs else none

/-- Value of a non-empty all-digit string; `none` otherwise. -/
def goAtoiNat (s : GoString) : Option Nat :=
  match s with
  | [] => none
  | _ :: _ => goDigitsAux 0 s

/-- Largest Go `int64`. -/
def maxInt64 : Nat := 9223372036854775807

/-- Go `strconv.Atoi`: optional sign, then one or more decimal digits; `none`
both on a syntax error and on an out-of-range value (Go reports `ErrRange`,
which the callers treat the same as a syntax error). -/
def goAtoi (s : GoString) : Option Int :=
  match s with
  | '+' :: rest =>
    match goAtoiNat rest with
    | some n => if n ≤ maxInt64 then some (n : Int) else none
    | none => none
  | '-' :: rest =>
    match goAtoiNat rest with
    | some n => if n ≤ maxInt64 + 1 then some (-(n : Int)) else none
    | none => none
  | _ =>
    match goAtoiNat s with
    | some n => if n ≤ maxInt64 then some (n : Int) else none
    | none => none

/-- Decimal rendering of an `Int`, as Go's `fmt` verb `%d` prints it. -/
def intToStr (i : Int) : GoString :=
  if i < 0 then '-' :: Nat.toDigits 10 i.natAbs else Nat.toDigits 10 i.toNat

/-- Insertion of a key into a Go `map[K]bool` used as a set
(`m[x] = true`): a repeated key leaves the map unchanged. -/
def mapInsert {α : Type} [DecidableEq α] (xs : List α) (x : α) : List α :=
  if x ∈ xs then xs else xs ++ [x]

/-!  Response classifier — `filterResponseByLengthAndRegex`, the final
revision in the repository (the version exercised by `main_test.go`). -/

/-- Go `filterResponseByLengthAndRegex(statusCode, bodyBytes, compiledRegex,
excludedLengths)`.  `bodyBytes []byte` is a list of naturals, the regex is
abstracted by its `Match` function (absent pointer = `none`), and the
`map[int]bool` of excluded lengths by the list of its keys. -/
def filterResponseByLengthAndRegex (statusCode : Int) (bodyBytes : List Nat)
    (compiledRegex : Option (List Nat → Bool)) (excludedLengths : List Int) :
    Int × Int × Bool :=
  let length : Int := bodyBytes.length
  if length ∈ excludedLengths then
    (statusCode, length, false)
  else
    match compiledRegex with
    | none => (statusCode, length, true)
    | some rx =>
      if !(rx bodyBytes) then (statusCode, length, true)
      else (statusCode, length, false)

/-!  `parseLengths` — parsing of the `--filter-lengths` specification. -/

/-- Loop body of `parseLengths`: `length, err := strconv.Atoi(strings.TrimSpace(part))`;
on error the token is skipped (after a diagnostic), otherwise
`lengthsMap[length] = true`. -/
def parseLengthsStep (lengthsMap : List Int) (part : GoString) : List Int :=
  match goAtoi (goTrimSpace part) with
  | none => lengthsMap
  | some length => mapInsert lengthsMap length

/-- Go `parseLengths(lengths)`: empty specification gives the empty map;
otherwise split on `","` and fold `parseLengthsStep`. -/
def parseLengths (lengths : GoString) : List Int :=
  if lengths = [] then []
  else (goSplitChar ',' lengths).foldl parseLengthsStep []

/-!  `parseHeaders` — the header multimap parser (the `map[string][]string`
revision). -/

/-- The Go map write `headerMap[key] = append(headerMap[key], value)` on an
association list: append to the entry of `key`, creating it at the end when
absent. -/
def multiAppend (hm : List (GoString × List GoString)) (k v : GoString) :
    List (GoString × List GoString) :=
  match hm with
  | [] => [(k, [v])]
  | kv :: t => if kv.1 = k then (kv.1, kv.2 ++ [v]) :: t else kv :: multiAppend t k v

/-- Go map read `m[k]` on an association list (zero value `[]` when absent). -/
def valuesOf (k : GoString) : List (GoString × List GoString) → List GoString
  | [] => []
  | kv :: t => if kv.1 = k then kv.2 else valuesOf k t

/-- Loop body of `parseHeaders`: `parts := strings.SplitN(pair, ":", 2)`;
entries without a `:` (fewer than two parts) are reported and skipped, the
others are trimmed and accumulated. -/
def parseHeadersStep (headerMap : List (GoString × List GoString)) (pair : GoString) :
    List (GoString × List GoString) :=
  match goSplitN2 ':' pair with
  | [key, value] => multiAppend headerMap (goTrimSpace key) (goTrimSpace value)
  | _ => headerMap

/-- Go `parseHeaders(headers)`: split on `";"` and fold `parseHeadersStep`. -/
def parseHeaders (headers : GoString) : List (GoString × List GoString) :=
  (goSplitChar ';' headers).foldl parseHeadersStep []

/-!  `prepareHTTPRequest` — outbound header assembly.  Only the header logic
is embedded; `http.NewRequest` failure is handled in `checkURL` below.
`req.Header.Set` replaces the entry, `req.Header.Add` appends to it (MIME key
canonicalization is the identity on the canonical keys involved here). -/

/-- `http.Header.Set(k, v)`: replace the entry of `k` by the single value `v`,
creating it when absent. -/
def goHeaderSet (h : List (GoString × List GoString)) (k v : GoString) :
    List (GoString × List GoString) :=
  match h with
  | [] => [(k, [v])]
  | kv :: t => if kv.1 = k then (k, [v]) :: t else kv :: goHeaderSet t k v

/-- Body of the header loop in `prepareHTTPRequest`: `Cookie` values are
joined with `"; "` into one `Set`, every other key `Add`s each value. -/
def prepareHeadersStep (req : List (GoString × List GoString))
    (kv : GoString × List GoString) : List (GoString × List GoString) :=
  if kv.1 = "Cookie".data then goHeaderSet req kv.1 (goJoin "; ".data kv.2)
  else kv.2.foldl (fun r v => multiAppend r kv.1 v) req

/-- Header assembly of Go `prepareHTTPRequest(method, url, headers)`: fold the
header multimap (Go iterates the map in unspecified order; the association
list fixes one order, which is immaterial since each key is visited once)
into the request's header map, starting from the empty header map of a fresh
request. -/
def prepareHTTPRequestHeaders (headers : List (GoString × List GoString)) :
    List (GoString × List GoString) :=
  headers.foldl prepareHeadersStep []

/-!  `readURLs` — the target set builder. -/

/-- The suffix-exclusion test inlined in `readURLs`:
`(ignoreCSS && strings.HasSuffix(url, ".css")) || (ignoreJS && strings.HasSuffix(url, ".js"))`. -/
def urlExcluded (ignoreCSS ignoreJS : Bool) (url : GoString) : Bool :=
  (ignoreCSS && goHasSuffix url ".css".data) || (ignoreJS && goHasSuffix url ".js".data)

/-- Go `readURLs(file)`: scan the lines in order; excluded lines are skipped
(`continue`), the rest become keys of the deduplicating map
(`urls[url] = true`). -/
def readURLs (ignoreCSS ignoreJS : Bool) (lines : List GoString) : List GoString :=
  lines.foldl
    (fun urls url => if urlExcluded ignoreCSS ignoreJS url then urls else mapInsert urls url)
    []

/-!  `checkURL` and the per-task recording loop of `processURLs`. -/

/-- One recorded result (Go `type Result struct { Method, URL string; Length int }`). -/
structure Result where
  Method : GoString
  URL : GoString
  Length : Int
deriving DecidableEq

/-- Outcome of the I/O performed by one request, abstracting the network:
`buildErr` = `http.NewRequest` failed, `transportErr` = `client.Do` failed
(`handleHTTPError` returned true), `readErr sc` = the body read failed after
a response with status `sc`, `ok sc body` = body fully read. -/
inductive FetchResult where
  | buildErr : FetchResult
  | transportErr : FetchResult
  | readErr : Int → FetchResult
  | ok : Int → List Nat → FetchResult
deriving DecidableEq

/-- Go `checkURL(method, url, headers, proxy, compiledRegex, allowedLengths)`,
with the network interaction abstracted to a `FetchResult`:
`return 0, 0, false` on a request-construction error, `return 0, 0, false`
on a transport error, `return resp.StatusCode, 0, false` on a body read
error, and the classifier on success. -/
def checkURL (fetch : FetchResult) (compiledRegex : Option (List Nat → Bool))
    (excludedLengths : List Int) : Int × Int × Bool :=
  match fetch with
  | .buildErr => (0, 0, false)
  | .transportErr => (0, 0, false)
  | .readErr sc => (sc, 0, false)
  | .ok sc body => filterResponseByLengthAndRegex sc body compiledRegex excludedLengths

/-- The Go map write
`urlStatuses[statusCode] = append(urlStatuses[statusCode], r)` on an
association list. -/
def appendStore (store : List (Int × List Result)) (sc : Int) (r : Result) :
    List (Int × List Result) :=
  match store with
  | [] => [(sc, [r])]
  | kv :: t => if kv.1 = sc then (kv.1, kv.2 ++ [r]) :: t else kv :: appendStore t sc r

/-- Body of the method loop inside the goroutine of `processURLs`:
`statusCode, length, matched := checkURL(...)`; only when `matched` is the
result appended to the store. -/
def runMethodsStep (url : GoString) (compiledRegex : Option (List Nat → Bool))
    (excludedLengths : List Int) (st : List (Int × List Result))
    (task : GoString × FetchResult) : List (Int × List Result) :=
  let res := checkURL task.2 compiledRegex excludedLengths
  if res.2.2 then appendStore st res.1 ⟨task.1, url, res.2.1⟩ else st

/-- The method loop of one `processURLs` goroutine for `url`: each `(method,
fetch outcome)` pair is processed in order, unconditionally — an error in one
task never stops the loop. -/
def runMethods (store : List (Int × List Result)) (url : GoString)
    (tasks : List (GoString × FetchResult)) (compiledRegex : Option (List Nat → Bool))
    (excludedLengths : List Int) : List (Int × List Result) :=
  tasks.foldl (runMethodsStep url compiledRegex excludedLengths) store

/-- `true` exactly on the three per-task error outcomes of `checkURL`. -/
def isFailure : FetchResult → Bool
  | .ok _ _ => false
  | _ => true

/-!  `writeToFile` — the report writer (final revision: header plus
`"| %s | %s => Length: %d\n"` result lines, no secondary sort). -/

/-- The string written by
`writer.WriteString(fmt.Sprintf("Responses with Status Code: %d\n\n", k))`. -/
def statusHeaderText (k : Int) : GoString :=
  "Responses with Status Code: ".data ++ intToStr k ++ "\n\n".data

/-- The string written by
`writer.WriteString(fmt.Sprintf("| %s | %s => Length: %d\n", r.Method, r.URL, r.Length))`. -/
def resultLine (r : Result) : GoString :=
  "| ".data ++ r.Method ++ " | ".data ++ r.URL ++ " => Length: ".data
    ++ intToStr r.Length ++ "\n".data

/-- Go map read `urlStatuses[k]` on the association-list store. -/
def lookupStore (store : List (Int × List Result)) (k : Int) : List Result :=
  match store with
  | [] => []
  | kv :: t => if kv.1 = k then kv.2 else lookupStore t k

/-- Inner loop of `writeToFile`: write one result line after another. -/
def writeResultStep (acc : GoString) (r : Result) : GoString :=
  acc ++ resultLine r

/-- Outer loop body of `writeToFile`: the header write, the result-line
writes of the group, then the `"\n"` write. -/
def writeGroupStep (store : List (Int × List Result)) (acc : GoString) (k : Int) :
    GoString :=
  ((lookupStore store k).foldl writeResultStep (acc ++ statusHeaderText k)) ++ "\n".data

/-- Go `writeToFile(urlStatuses, outFile)`: collect the keys, `sort.Ints`
them, then write every group in that order.  The value is the full text the
buffered writer flushes to the file. -/
def writeToFile (urlStatuses : List (Int × List Result)) : GoString :=
  ((urlStatuses.map Prod.fst).insertionSort (fun a b => a ≤ b)).foldl
    (writeGroupStep urlStatuses) []

/-- Specification-side text of one status group: the header (with its blank
line), one line per result in stored order, and the terminating blank line.
Used to state the report-format theorems. -/
def groupText (k : Int) (rs : List Result) : GoString :=
  statusHeaderText k ++ (rs.map resultLine).flatten ++ "\n".data

/-!  The dispatcher of `processURLs` — a small-step model of its concurrency
skeleton.  The main loop runs `wg.Add(1)`, then `sem <- true` (blocking while
the buffered channel of capacity `N` is full), then `go func(url)`; each
goroutine ends by running its deferred `<-sem; wg.Done()`, on the success and
on the failure path alike. -/

/-- Position of the sequential scheduling loop between its effects:
`idle` = before `wg.Add(1)` of the next URL, `added` = after `wg.Add(1)` but
before `sem <- true`, `held` = holding a fresh semaphore slot, goroutine not
yet launched. -/
inductive MainPC where
  | idle : MainPC
  | added : MainPC
  | held : MainPC
deriving DecidableEq

/-- Dispatcher state: URLs not yet dispatched, the loop position, the number
of goroutines currently executing, the number of filled semaphore slots, and
the waitgroup counter. -/
structure SchedState where
  pending : Nat
  pc : MainPC
  running : Nat
  semUsed : Nat
  wg : Nat
deriving DecidableEq

/-- Dispatcher state at entry of `processURLs` with `u` URLs to process. -/
def startState (u : Nat) : SchedState :=
  ⟨u, .idle, 0, 0, 0⟩

/-- Interleaving semantics of the dispatcher with semaphore capacity `N`.
`add` = `wg.Add(1)`; `acquire` = `sem <- true`, enabled only when a slot is
free (`semUsed < N`), otherwise the loop blocks; `spawn` = `go func(url)`;
`finishOk`/`finishErr` = a goroutine reaching its deferred
`<-sem; wg.Done()` after a successful or a failed task. -/
inductive Step (N : Nat) : SchedState → SchedState → Prop where
  | add : ∀ s, 0 < s.pending → s.pc = .idle →
      Step N s ⟨s.pending - 1, .added, s.running, s.semUsed, s.wg + 1⟩
  | acquire : ∀ s, s.pc = .added → s.semUsed < N →
      Step N s ⟨s.pending, .held, s.running, s.semUsed + 1, s.wg⟩
  | spawn : ∀ s, s.pc = .held →
      Step N s ⟨s.pending, .idle, s.running + 1, s.semUsed, s.wg⟩
  | finishOk : ∀ s, 0 < s.running →
      Step N s ⟨s.pending, s.pc, s.running - 1, s.semUsed - 1, s.wg - 1⟩
  | finishErr : ∀ s, 0 < s.running →
      Step N s ⟨s.pending, s.pc, s.running - 1, s.semUsed - 1, s.wg - 1⟩

/-- States the dispatcher can reach from `startState u`. -/
inductive Reachable (N u : Nat) : SchedState → Prop where
  | start : Reachable N u (startState u)
  | step : ∀ s t, Reachable N u s → Step N s t → Reachable N u t

/-- Semaphore slots held by the scheduling loop itself in a given position. -/
def pcSlot : MainPC → Nat
  | .idle => 0
  | .added => 0
  | .held => 1

/-- Waitgroup units attributable to the scheduling loop in a given position. -/
def pcWg : MainPC → Nat
  | .idle => 0
  | .added => 1
  | .held => 1

/-!  Helper lemmas shared by the claim theorems. -/

theorem mem_mapInsert {α : Type} [DecidableEq α] (xs : List α) (x y : α) :
    y ∈ mapInsert xs x ↔ y ∈ xs ∨ y = x := by
  by_cases h : x ∈ xs
  · unfold mapInsert
    rw [if_pos h]
    exact ⟨Or.inl, fun hy => hy.elim id (fun e => e ▸ h)⟩
  · unfold mapInsert
    rw [if_neg h]
    simp [List.mem_append]

theorem nodup_mapInsert {α : Type} [DecidableEq α] (xs : List α) (x : α) (h : xs.Nodup) :
    (mapInsert xs x).Nodup := by
  by_cases hx : x ∈ xs
  · unfold mapInsert; rw [if_pos hx]; exact h
  · unfold mapInsert; rw [if_neg hx]
    rw [List.nodup_append]
    exact ⟨h, List.nodup_singleton x, by simpa [List.disjoint_singleton] using hx⟩

/-- C1: for every status code, body, excluded-length set and optional regex,
the classifier returns the byte length of the body, excludes whenever the
length is in the excluded set (regardless of the regex), includes when no
regex is configured, and otherwise includes exactly when the body does not
match the regex. -/
theorem classifier_spec (statusCode : Int) (bodyBytes : List Nat)
    (compiledRegex : Option (List Nat → Bool)) (excludedLengths : List Int) :
    (filterResponseByLengthAndRegex statusCode bodyBytes compiledRegex excludedLengths).2.1
        = (bodyBytes.length : Int)
    ∧ ((bodyBytes.length : Int) ∈ excludedLengths →
        (filterResponseByLengthAndRegex statusCode bodyBytes compiledRegex
          excludedLengths).2.2 = false)
    ∧ ((bodyBytes.length : Int) ∉ excludedLengths → compiledRegex = none →
        (filterResponseByLengthAndRegex statusCode bodyBytes compiledRegex
          excludedLengths).2.2 = true)
    ∧ (∀ m, (bodyBytes.length : Int) ∉ excludedLengths → compiledRegex = some m →
        ((filterResponseByLengthAndRegex statusCode bodyBytes compiledRegex
          excludedLengths).2.2 = true ↔ m bodyBytes = false)) := by
  unfold filterResponseByLengthAndRegex
  by_cases hmem : (bodyBytes.length : Int) ∈ excludedLengths
  · simp [hmem]
  · cases compiledRegex with
    | none => simp [hmem]
    | some m => by_cases hm : m bodyBytes <;> simp [hmem, hm]

/-- C1 witness: a body of length 3 that matches the configured regex while 3
is also an excluded length is excluded. -/
theorem classifier_spec_witness :
    (filterResponseByLengthAndRegex 200 [7, 7, 7] (some (fun _ => true)) [3]).2.2 = false :=
  (classifier_spec 200 [7, 7, 7] (some (fun _ => true)) [3]).2.1 (by decide)

/-- C9: the classifier passes the status code through unchanged and returns
the exact byte length of the body in every branch, excluding branches
included. -/
theorem classifier_frame (statusCode : Int) (bodyBytes : List Nat)
    (compiledRegex : Option (List Nat → Bool)) (excludedLengths : List Int) :
    (filterResponseByLengthAndRegex statusCode bodyBytes compiledRegex excludedLengths).1
        = statusCode
    ∧ (filterResponseByLengthAndRegex statusCode bodyBytes compiledRegex excludedLengths).2.1
        = (bodyBytes.length : Int) := by
  unfold filterResponseByLengthAndRegex
  by_cases hmem : (bodyBytes.length : Int) ∈ excludedLengths
  · simp [hmem]
  · cases compiledRegex with
    | none => simp [hmem]
    | some m => by_cases hm : m bodyBytes <;> simp [hmem, hm]

/-- C5: a failed task (request construction, transport, or body read error)
is local: it contributes no outcome to the store, the remaining tasks are
still processed exactly as without it, and a body read error yields the known
status code with length 0 and the dropped flag. -/
theorem taskFailure_local (store : List (Int × List Result)) (url : GoString)
    (compiledRegex : Option (List Nat → Bool)) (excludedLengths : List Int)
    (pre post : List (GoString × FetchResult)) (m : GoString) (o : FetchResult)
    (h : isFailure o = true) :
    runMethods store url (pre ++ (m, o) :: post) compiledRegex excludedLengths
      = runMethods store url (pre ++ post) compiledRegex excludedLengths
    ∧ (∀ sc, o = .readErr sc →
        checkURL o compiledRegex excludedLengths = (sc, 0, false)) := by
  constructor
  · have hstep : ∀ st : List (Int × List Result),
        runMethodsStep url compiledRegex excludedLengths st (m, o) = st := by
      intro st
      cases o with
      | buildErr => rfl
      | transportErr => rfl
      | readErr sc => rfl
      | ok sc body => simp [isFailure] at h
    unfold runMethods
    rw [List.foldl_append, List.foldl_append, List.foldl_cons, hstep]
  · intro sc hsc
    subst hsc
    rfl

/-- C5 witness: a body-read failure between two successful tasks leaves the
store exactly as if it had never been dispatched, and reports status 500 with
length 0, dropped. -/
theorem taskFailure_local_witness :
    runMethods [] "u".data [("GET".data, .ok 200 [1]), ("POST".data, .readErr 500)] none []
      = runMethods [] "u".data [("GET".data, .ok 200 [1])] none []
    ∧ checkURL (.readErr 500) none [] = (500, 0, false) := by
  have h := taskFailure_local [] "u".data none [] [("GET".data, FetchResult.ok 200 [1])] []
      "POST".data (FetchResult.readErr 500) (by decide)
  exact ⟨h.1, h.2 500 rfl⟩

/-- C7: the request builder joins all configured `Cookie` values into a single
outbound `Cookie` header with `"; "`, and in particular the specification
`"Cookie:a=1;Cookie:b=2"` yields the single value `"a=1; b=2"`. -/
theorem cookieHeader_spec :
    (∀ vs : List GoString,
        prepareHTTPRequestHeaders [("Cookie".data, vs)]
          = [("Cookie".data, [goJoin "; ".data vs])])
    ∧ valuesOf "Cookie".data
        (prepareHTTPRequestHeaders (parseHeaders "Cookie:a=1;Cookie:b=2".data))
      = ["a=1; b=2".data] := by
  constructor
  · intro vs
    show prepareHeadersStep [] ("Cookie".data, vs) = _
    unfold prepareHeadersStep
    rw [if_pos rfl]
    rfl
  · decide

theorem mem_foldl_parseLengthsStep :
    ∀ (parts : List GoString) (acc : List Int) (n : Int),
      n ∈ parts.foldl parseLengthsStep acc ↔
        n ∈ acc ∨ n ∈ parts.filterMap (fun part => goAtoi (goTrimSpace part)) := by
  intro parts
  induction parts with
  | nil => intro acc n; simp
  | cons p ps ih =>
    intro acc n
    rw [List.foldl_cons, ih]
    unfold parseLengthsStep
    cases hp : goAtoi (goTrimSpace p) with
    | none => simp [hp]
    | some v =>
      simp only [hp, List.filterMap_cons, mem_mapInsert, List.mem_cons]
      tauto

/-- C10: parsing the excluded-lengths specification is total and non-fatal:
the empty string yields the empty set, and in a comma-separated list exactly
the tokens that `Atoi` accepts after trimming end up in the set — invalid
tokens are skipped while the remaining valid ones are still added, as the
concrete run on `"12, x,34"` illustrates. -/
theorem parseLengths_spec :
    parseLengths [] = []
    ∧ (∀ (s : GoString) (n : Int),
        n ∈ parseLengths s ↔
          n ∈ (goSplitChar ',' s).filterMap (fun part => goAtoi (goTrimSpace part)))
    ∧ parseLengths "12, x,34".data = [12, 34] := by
  refine ⟨rfl, ?_, by decide⟩
  intro s n
  by_cases hs : s = []
  · subst hs
    have hrhs : (goSplitChar ',' ([] : GoString)).filterMap
        (fun part => goAtoi (goTrimSpace part)) = [] := rfl
    rw [hrhs]
    exact Iff.rfl
  · unfold parseLengths
    rw [if_neg hs, mem_foldl_parseLengthsStep]
    simp

theorem valuesOf_multiAppend (k k2 v : GoString) :
    ∀ hm, valuesOf k (multiAppend hm k2 v)
      = if k2 = k then valuesOf k hm ++ [v] else valuesOf k hm := by
  intro hm
  induction hm with
  | nil =>
    by_cases hk : k2 = k <;> simp [multiAppend, valuesOf, hk]
  | cons kv t ih =>
    unfold multiAppend
    by_cases h1 : kv.1 = k2
    · rw [if_pos h1]
      by_cases hk : k2 = k
      · have hkk : kv.1 = k := h1.trans hk
        simp [valuesOf, hkk, hk]
      · have hne : kv.1 ≠ k := by rw [h1]; exact hk
        simp [valuesOf, hne, hk]
    · rw [if_neg h1]
      by_cases h1k : kv.1 = k
      · have hk : k2 ≠ k := fun e => h1 (h1k.trans e.symm)
        simp [valuesOf, h1k, hk]
      · simp [valuesOf, h1k, ih]

theorem valuesOf_foldl_parseHeadersStep (k : GoString) :
    ∀ (pairs : List GoString) (acc : List (GoString × List GoString)),
      valuesOf k (pairs.foldl parseHeadersStep acc)
        = valuesOf k acc ++ pairs.filterMap (fun pair =>
            match goSplitN2 ':' pair with
            | [key, value] =>
              if goTrimSpace key = k then some (goTrimSpace value) else none
            | _ => none) := by
  intro pairs
  induction pairs with
  | nil => intro acc; simp
  | cons p ps ih =>
    intro acc
    rw [List.foldl_cons, ih]
    unfold parseHeadersStep
    cases hsp : goSplitN2 ':' p with
    | nil => simp [hsp]
    | cons a rest =>
      cases rest with
      | nil => simp [hsp]
      | cons b rest2 =>
        cases rest2 with
        | nil =>
          simp only [hsp, List.filterMap_cons, valuesOf_multiAppend]
          by_cases hk : goTrimSpace a = k
          · simp [hk, List.append_assoc]
          · simp [hk]
        | cons c rest3 => simp [hsp]

/-- C6: the header parser splits entries on `;` and each entry at its first
`:` only (a value may contain further colons), skips entries without a `:`
while still processing the rest, trims names and values, and accumulates
repeated names in encounter order — stated as: the values recorded for any
name `k` are exactly the trimmed values of the well-formed entries naming
`k`, in order; together with the first-colon behaviour of `SplitN`. -/
theorem parseHeaders_spec :
    (∀ (s k : GoString),
        valuesOf k (parseHeaders s)
          = (goSplitChar ';' s).filterMap (fun pair =>
              match goSplitN2 ':' pair with
              | [key, value] =>
                if goTrimSpace key = k then some (goTrimSpace value) else none
              | _ => none))
    ∧ (∀ pre post : GoString, ':' ∉ pre →
        goSplitN2 ':' (pre ++ ':' :: post) = [pre, post])
    ∧ (∀ pair : GoString, ':' ∉ pair → goSplitN2 ':' pair = [pair]) := by
  refine ⟨?_, ?_, ?_⟩
  · intro s k
    unfold parseHeaders
    rw [valuesOf_foldl_parseHeadersStep]
    simp [valuesOf]
  · intro pre
    induction pre with
    | nil => intro post h; rfl
    | cons c cs ih =>
      intro post h
      have hc : ¬(c = ':') := fun e => h (by simp [e])
      have hcs : ':' ∉ cs := fun hm => h (List.mem_cons_of_mem c hm)
      simp [goSplitN2, hc, ih post hcs]
  · intro pair
    induction pair with
    | nil => intro h; rfl
    | cons c cs ih =>
      intro h
      have hc : ¬(c = ':') := fun e => h (by simp [e])
      have hcs : ':' ∉ cs := fun hm => h (List.mem_cons_of_mem c hm)
      simp [goSplitN2, hc, ih hcs]

/-- C6 witness: an entry value keeps the colons after the first one, and an
entry without a colon stays in one piece (and is hence skipped). -/
theorem parseHeaders_spec_witness :
    goSplitN2 ':' ("a".data ++ ':' :: "b:c".data) = ["a".data, "b:c".data]
    ∧ goSplitN2 ':' "bad".data = ["bad".data] :=
  ⟨parseHeaders_spec.2.1 "a".data "b:c".data (by decide),
   parseHeaders_spec.2.2 "bad".data (by decide)⟩

/-- C2: in every dispatcher state reachable with semaphore capacity `N`, at
most `N` tasks execute simultaneously; the semaphore count accounts for every
running task plus the slot the scheduling loop may hold, and the waitgroup
count matches the outstanding work — the release and the decrement happen on
both exit paths. -/
theorem bounded_concurrency (N u : Nat) (s : SchedState) (h : Reachable N u s) :
    s.running ≤ N
    ∧ s.semUsed = s.running + pcSlot s.pc
    ∧ s.semUsed ≤ N
    ∧ s.wg = s.running + pcWg s.pc := by
  induction h with
  | start => simp [startState, pcSlot, pcWg]
  | step s t hs hst ih =>
    rcases ih with ⟨ih1, ih2, ih3, ih4⟩
    cases hst with
    | add hp hpc =>
      rw [hpc] at ih2 ih4
      dsimp only
      simp only [pcSlot, pcWg] at ih2 ih4 ⊢
      omega
    | acquire hpc hsem =>
      rw [hpc] at ih2 ih4
      dsimp only
      simp only [pcSlot, pcWg] at ih2 ih4 ⊢
      omega
    | spawn hpc =>
      rw [hpc] at ih2 ih4
      dsimp only
      simp only [pcSlot, pcWg] at ih2 ih4 ⊢
      omega
    | finishOk hr =>
      dsimp only
      omega
    | finishErr hr =>
      dsimp only
      omega

/-- C2 witness: after `wg.Add(1)` on the first URL with capacity 1, no more
than one task runs. -/
theorem bounded_concurrency_witness :
    (⟨2, MainPC.added, 0, 0, 1⟩ : SchedState).running ≤ 1 :=
  (bounded_concurrency 1 3 _
    (Reachable.step _ _ Reachable.start (Step.add _ (by decide) rfl))).1

theorem mem_readURLs (iC iJ : Bool) :
    ∀ (lines : List GoString) (acc : List GoString) (u : GoString),
      u ∈ lines.foldl
          (fun urls url => if urlExcluded iC iJ url then urls else mapInsert urls url) acc
        ↔ u ∈ acc ∨ (u ∈ lines ∧ urlExcluded iC iJ u = false) := by
  intro lines
  induction lines with
  | nil => intro acc u; simp
  | cons l ls ih =>
    intro acc u
    rw [List.foldl_cons]
    by_cases hl : urlExcluded iC iJ l = true
    · rw [if_pos hl, ih]
      constructor
      · rintro (h | h)
        · exact Or.inl h
        · exact Or.inr ⟨List.mem_cons_of_mem _ h.1, h.2⟩
      · rintro (h | ⟨hm, hok⟩)
        · exact Or.inl h
        · rcases List.mem_cons.mp hm with heq | hm2
          · rw [heq, hl] at hok; exact Bool.noConfusion hok
          · exact Or.inr ⟨hm2, hok⟩
    · rw [if_neg hl, ih]
      have hl2 : urlExcluded iC iJ l = false := by
        cases hv : urlExcluded iC iJ l
        · rfl
        · exact absurd hv hl
      constructor
      · rintro (h | h)
        · rcases (mem_mapInsert acc l u).mp h with h2 | heq
          · exact Or.inl h2
          · exact Or.inr ⟨by rw [heq]; exact List.mem_cons_self l ls, by rw [heq]; exact hl2⟩
        · exact Or.inr ⟨List.mem_cons_of_mem _ h.1, h.2⟩
      · rintro (h | ⟨hm, hok⟩)
        · exact Or.inl ((mem_mapInsert acc l u).mpr (Or.inl h))
        · rcases List.mem_cons.mp hm with heq | hm2
          · exact Or.inl ((mem_mapInsert acc l u).mpr (Or.inr heq))
          · exact Or.inr ⟨hm2, hok⟩

theorem nodup_readURLs (iC iJ : Bool) :
    ∀ (lines : List GoString) (acc : List GoString), acc.Nodup →
      (lines.foldl
        (fun urls url => if urlExcluded iC iJ url then urls else mapInsert urls url)
        acc).Nodup := by
  intro lines
  induction lines with
  | nil => intro acc h; exact h
  | cons l ls ih =>
    intro acc h
    rw [List.foldl_cons]
    by_cases hl : urlExcluded iC iJ l = true
    · rw [if_pos hl]; exact ih acc h
    · rw [if_neg hl]; exact ih _ (nodup_mapInsert acc l h)

/-- C8: the target set builder collapses exact duplicates — its size equals
the number of distinct non-excluded input strings — and with both ignore
flags enabled no URL ending in `.css` or `.js` survives. -/
theorem readURLs_spec (ignoreCSS ignoreJS : Bool) (lines : List GoString) :
    (readURLs ignoreCSS ignoreJS lines).length
      = ((lines.filter (fun u => !(urlExcluded ignoreCSS ignoreJS u))).dedup).length
    ∧ (ignoreCSS = true → ignoreJS = true →
        ∀ u ∈ readURLs ignoreCSS ignoreJS lines,
          goHasSuffix u ".css".data = false ∧ goHasSuffix u ".js".data = false) := by
  constructor
  · have hnd1 : (readURLs ignoreCSS ignoreJS lines).Nodup :=
      nodup_readURLs _ _ lines [] List.nodup_nil
    have hnd2 := List.nodup_dedup
      (lines.filter (fun u => !(urlExcluded ignoreCSS ignoreJS u)))
    apply List.Perm.length_eq
    rw [List.perm_ext_iff_of_nodup hnd1 hnd2]
    intro u
    unfold readURLs
    rw [mem_readURLs]
    simp [List.mem_dedup, List.mem_filter]
  · intro h1 h2 u hu
    subst h1
    subst h2
    unfold readURLs at hu
    rw [mem_readURLs] at hu
    rcases hu with h | ⟨hmem, hok⟩
    · cases h
    · unfold urlExcluded at hok
      simp at hok
      exact hok

/-- C8 witness: with both flags on, a URL the builder kept ends neither in
`.css` nor in `.js`. -/
theorem readURLs_spec_witness :
    goHasSuffix "https://h/a".data ".css".data = false
    ∧ goHasSuffix "https://h/a".data ".js".data = false :=
  (readURLs_spec true true ["https://h/a".data, "https://h/a".data, "b.css".data]).2
    rfl rfl "https://h/a".data (by decide)

theorem foldl_writeResultStep : ∀ (rs : List Result) (acc : GoString),
    rs.foldl writeResultStep acc = acc ++ (rs.map resultLine).flatten := by
  intro rs
  induction rs with
  | nil => intro acc; simp
  | cons r t ih =>
    intro acc
    rw [List.foldl_cons, ih]
    simp [writeResultStep, List.append_assoc]

theorem foldl_writeGroupStep (store : List (Int × List Result)) :
    ∀ (ks : List Int) (acc : GoString),
      ks.foldl (writeGroupStep store) acc
        = acc ++ (ks.map (fun k => groupText k (lookupStore store k))).flatten := by
  intro ks
  induction ks with
  | nil => intro acc; simp
  | cons k t ih =>
    intro acc
    rw [List.foldl_cons, ih]
    unfold writeGroupStep groupText
    rw [foldl_writeResultStep]
    simp [List.append_assoc]

/-- C4 (amended): the report is the concatenation, over the status codes in
ascending order (the sorted key list is sorted and a permutation of the
store's keys), of a `Responses with Status Code: <code>` header followed by a
blank line, one `| <METHOD> | <URL> => Length: <N>` line per stored result in
stored order — the method segment is always present — and a terminating blank
line per group. -/
theorem writeToFile_spec (urlStatuses : List (Int × List Result)) :
    writeToFile urlStatuses
      = (((urlStatuses.map Prod.fst).insertionSort (fun a b => a ≤ b)).map
          (fun k => groupText k (lookupStore urlStatuses k))).flatten
    ∧ List.Sorted (fun a b => a ≤ b)
        ((urlStatuses.map Prod.fst).insertionSort (fun a b => a ≤ b))
    ∧ ((urlStatuses.map Prod.fst).insertionSort (fun a b => a ≤ b)).Perm
        (urlStatuses.map Prod.fst) := by
  refine ⟨?_, ?_, ?_⟩
  · unfold writeToFile
    rw [foldl_writeGroupStep]
    simp
  · exact List.sorted_insertionSort _ _
  · exact List.perm_insertionSort _ _

/-- C4 counterexample store: one group holding a single GET result. -/
def c4Store : List (Int × List Result) :=
  [(200, [⟨"GET".data, "https://e/a".data, 7⟩])]

/-- C4 counterexample: with only GET probed, the emitted result line is
`| GET | https://e/a => Length: 7` — the method segment is not omitted and
the line carries `| ... | ` delimiters, unlike the claimed
`<URL> => Length: <N>` form. -/
theorem writeToFile_format_cex :
    writeToFile c4Store
      = "Responses with Status Code: 200\n\n| GET | https://e/a => Length: 7\n\n".data
    ∧ writeToFile c4Store
      ≠ "Responses with Status Code: 200\n\nhttps://e/a => Length: 7\n\n".data := by
  constructor
  · decide
  · decide

/-- C3 failing store: within status 200 the result for path `/b` was recorded
before the one for `/a` (a possible completion order). -/
def c3Store : List (Int × List Result) :=
  [(200, [⟨"GET".data, "https://h/b".data, 2⟩, ⟨"GET".data, "https://h/a".data, 1⟩])]

/-- The same recorded outcomes in the opposite completion order. -/
def c3StoreSwapped : List (Int × List Result) :=
  [(200, [⟨"GET".data, "https://h/a".data, 1⟩, ⟨"GET".data, "https://h/b".data, 2⟩])]

/-- C3: the writer emits the group's outcomes in stored (completion) order —
here `/b` before `/a`, not sorted by URL path — and the two completion orders
of the same outcome set produce different bytes, so the report is not
completion-order independent. -/
theorem writeToFile_order_dep :
    writeToFile c3Store
      = ("Responses with Status Code: 200\n\n| GET | https://h/b => Length: 2\n"
          ++ "| GET | https://h/a => Length: 1\n\n").data
    ∧ writeToFile c3Store ≠ writeToFile c3StoreSwapped := by
  constructor
  · decide
  · decide

end SessionProbe
